import Mathlib

/-!
Verification of the Durak-style card game engine in src/main.py, as a shallow
embedding.

Conventions of the embedding:
* Python Card objects are modelled as values of the structure `Card`; in a
  game every card object carries a distinct (rank, suit) pair, so object
  identity coincides with value equality on this structure.
* Python sets and frozensets of cards are modelled as `Finset Card`; Python
  lists as `List Card`.
* Fallible operations (`list.pop()` on an empty list raises `IndexError`)
  return `Option`.
-/

/-- Class Card (src/main.py lines 5-61): a rank (6-14), a suit (0-3) and a
trump flag, initially false. -/
structure Card where
  rank : Nat
  suit : Nat
  is_trump : Bool
deriving DecidableEq

namespace Card

/-- Method `Card.__lt__` (src/main.py lines 47-54): a card is less than
another if they share a suit and it has the lower rank, or if the suits
differ and the other card is a trump. -/
def lt (a b : Card) : Bool :=
  if a.suit = b.suit then decide (a.rank < b.rank)
  else if b.is_trump then true
  else false

/-- Trump-marking step of `Deck.choose_trump` (src/main.py lines 86-88): set
`is_trump` on a card whose suit is the trump suit `t`, leave others alone. -/
def mark (t : Nat) (c : Card) : Card :=
  if c.suit = t then { c with is_trump := true } else c

/-- Identity of a card as the game accounts for it: its (rank, suit) pair
(the trump flag is a mutable annotation, not part of the card's identity). -/
def idPair (c : Card) : Nat × Nat :=
  (c.rank, c.suit)

end Card

/-- Class Deck (src/main.py lines 62-88): a list of cards plus the designated
trump card (initially absent). -/
structure Deck where
  cards : List Card
  trump_card : Option Card
deriving DecidableEq

namespace Deck

/-- Constructor `Deck.__init__` (src/main.py lines 67-72): the 36 cards, suits
0-3, ranks 6-14, appended in order; `trump_card` is `None`. -/
def init : Deck :=
  ⟨(List.range 4).flatMap (fun s => (List.range 9).map (fun i => ⟨i + 6, s, false⟩)), none⟩

/-- Method `Deck.draw` (src/main.py lines 78-80): remove and return the last
card of the list; `list.pop()` on an empty list raises, modelled as `none`. -/
def draw (d : Deck) : Option (Card × Deck) :=
  match d.cards.getLast? with
  | none => none
  | some c => some (c, ⟨d.cards.dropLast, d.trump_card⟩)

/-- Method `Deck.choose_trump` (src/main.py lines 82-88): draw a card, store
it as `trump_card`, reinsert it at index 0 (the bottom: `draw` pops from the
end), then set `is_trump` on every card of its suit found in the deck's own
list (`for c in self.cards`).  The stored `trump_card` aliases the reinserted
card at index 0, so it carries the mark as well.  The code has no
already-designated guard of any kind: a second call repeats the whole
procedure on the current deck contents. -/
def choose_trump (d : Deck) : Option Deck :=
  match d.draw with
  | none => none
  | some (tc, d1) =>
      some ⟨(tc :: d1.cards).map (Card.mark tc.suit), some (Card.mark tc.suit tc)⟩

end Deck

namespace Player

/-- Rank grouping used by `valid_attacks`: the set of ranks present in the
hand.  `valid_attacks` (src/main.py line 136) calls `self.get_rank_classes()`,
a method not defined anywhere in src/main.py; `Player.playable_cards`
(lines 120-131) is the method that computes exactly this grouping of the hand
by rank (a dict from each rank present to the set of hand cards of that rank,
ignoring its own argument), so the grouping is modelled after it:
`rank_classes` gives the key set and `rank_class` each rank's group. -/
def rank_classes (hand : List Card) : Finset Nat :=
  (hand.map Card.rank).toFinset

/-- Group of hand cards of rank `r` (a value of the grouping dict). -/
def rank_class (hand : List Card) (r : Nat) : Finset Card :=
  (hand.filter (fun c => decide (c.rank = r))).toFinset

/-- Method `Player.valid_attacks` (src/main.py lines 133-142): for every rank
group of the hand whose rank is in `_playable_ranks` (or whenever
`_playable_ranks` is empty), emit every non-empty subset of that group
(`itertools.combinations` over the group for sizes 1 up to the group size).
The `length_limit` parameter is never read by the body. -/
def valid_attacks (hand : List Card) (pr : Finset Nat) (length_limit : Nat) :
    Finset (Finset Card) :=
  (rank_classes hand).biUnion (fun r =>
    if r ∈ pr ∨ pr = ∅ then ((rank_class hand r).powerset).erase ∅ else ∅)

/-- Recursive tree search `make_defense_tree` inside `Player.valid_defenses`
(src/main.py lines 157-172), the beaters collection processed in list order.
The Python code stores the beaters in a set and pops elements in unspecified
order; the resulting set of solutions is order-independent (its membership is
characterized pointwise by `mem_make_defense_tree` below). -/
def make_defense_tree : List (Card × Finset Card) → Finset Card → Finset (Finset Card)
  | [], curr_solution => {curr_solution}
  | curr_starter :: rest, curr_solution =>
      curr_starter.2.biUnion (fun card =>
        if card ∈ curr_solution then ∅
        else make_defense_tree rest (insert card curr_solution))

/-- Method `Player.valid_defenses` (src/main.py lines 144-178): pair each
incoming card with the set of hand cards that beat it (`c > inc`, that is,
`Card.lt inc c`), run the tree search from the empty partial solution, and
finally discard the empty solution if present. -/
def valid_defenses (hand incoming : List Card) : Finset (Finset Card) :=
  let beaters := incoming.map (fun inc =>
    (inc, (hand.filter (fun c => Card.lt inc c)).toFinset))
  (make_defense_tree beaters ∅).erase ∅

end Player

namespace Round

/-- Which player a round resolution designates as its winner. -/
inductive Winner
  | attacker
  | defender
deriving DecidableEq

/-- Card-holding state a `Game.Round` works on: the attacker's hand, the
defender's hand and the round's card pool (`Game.Round.__init__`,
src/main.py lines 309-315; the `deck` field is never used by `start_round`
and the `result` field is never written). -/
structure RoundState where
  attacker_hand : List Card
  defender_hand : List Card
  card_pool : List Card
deriving DecidableEq

/-- Method `Game.Round.execute_move` (src/main.py lines 317-323) acting on the
moving player's hand and the round pool: `cards = set(_cards)`, then
`player.hand = list(set(player.hand) - cards)` and
`self.card_pool.extend(cards)`.  The set difference is modelled as a filter
(which agrees with it, up to the unspecified order Python's `list(set(...))`
produces, whenever the hand holds no duplicate card), and the set conversion
of the move as `dedup`. -/
def execute_move (hand pool : List Card) (cards : List Card) : List Card × List Card :=
  (hand.filter (fun c => decide (c ∉ cards)), pool ++ cards.dedup)

/-- Arguments `start_round` (src/main.py line 360) passes to the attacking
strategy `generate_attack`: the set `set(card.rank for card in
self.card_pool)` of pool ranks and the count `len(self.attacker.hand)`. -/
def attack_args (s : RoundState) : Finset Nat × Nat :=
  ((s.card_pool.map Card.rank).toFinset, s.attacker_hand.length)

/-- Loop of `Game.Round.start_round` (src/main.py lines 357-372), with the
`generate_attack` and `generate_defense` strategy collaborators passed in as
functions and a fuel argument standing for the unbounded `while`.  A `None`
move and an empty move both take the falsy branch of
`if not self.attacking_cards` and of `if not defense`. -/
def round_loop (atk : Finset Nat → Nat → Option (List Card))
    (dfn : List Card → Option (List Card)) :
    Nat → RoundState → Option (Winner × RoundState)
  | 0, _ => none
  | fuel + 1, s =>
      match atk (attack_args s).1 (attack_args s).2 with
      | none => some (Winner.defender, s)
      | some attacking_cards =>
          if attacking_cards = [] then some (Winner.defender, s)
          else
            let m := execute_move s.attacker_hand s.card_pool attacking_cards
            let s1 : RoundState := ⟨m.1, s.defender_hand, m.2⟩
            match dfn attacking_cards with
            | none => some (Winner.attacker, s1)
            | some defense =>
                if defense = [] then some (Winner.attacker, s1)
                else
                  let m2 := execute_move s1.defender_hand s1.card_pool defense
                  round_loop atk dfn fuel ⟨s1.attacker_hand, m2.1, m2.2⟩

/-- Method `Game.Round.start_round` (src/main.py lines 353-373).  After the
loop resolves, the method executes `return self.winner` (line 373), but no
`Round` object ever has a `winner` attribute: the loop's variable is the
local `winner`, and `__init__` defines `result`, never `winner`.  So every
resolved round raises `AttributeError` instead of returning the winning
player.  Exhaustion of the model's fuel is reported as a separate error. -/
def start_round (atk : Finset Nat → Nat → Option (List Card))
    (dfn : List Card → Option (List Card)) (fuel : Nat) (s : RoundState) :
    Except String Winner :=
  match round_loop atk dfn fuel s with
  | none => Except.error "model out of fuel"
  | some _ => Except.error "AttributeError: Round object has no attribute winner"

end Round

namespace Game

/-- Card-holding zones of a game: the deck, both players' hands, and the
round card pool. -/
structure GState where
  deck : Deck
  hand1 : List Card
  hand2 : List Card
  pool : List Card
deriving DecidableEq

/-- Dealing step of `Game.__init__` (src/main.py lines 386-388): draw the
deck's last card and append it to one player's hand. -/
def deal_one (to_first : Bool) (s : GState) : Option GState :=
  match s.deck.draw with
  | none => none
  | some (c, d1) =>
      if to_first then some ⟨d1, s.hand1 ++ [c], s.hand2, s.pool⟩
      else some ⟨d1, s.hand1, s.hand2 ++ [c], s.pool⟩

/-- Method `Deck.choose_trump` lifted to the game state: the marking loop
iterates only over `self.cards`, so cards already dealt into hands (no longer
members of that list) are untouched by it. -/
def choose_trumpG (s : GState) : Option GState :=
  match s.deck.choose_trump with
  | none => none
  | some d1 => some ⟨d1, s.hand1, s.hand2, s.pool⟩

/-- Method `Game.Round.execute_move` on the game state, the moving player
selected by a flag. -/
def execute_moveG (defender_moving : Bool) (cards : List Card) (s : GState) : GState :=
  if defender_moving then
    let m := Round.execute_move s.hand2 s.pool cards
    ⟨s.deck, s.hand1, m.1, m.2⟩
  else
    let m := Round.execute_move s.hand1 s.pool cards
    ⟨s.deck, m.1, s.hand2, m.2⟩

/-- Multiset of (rank, suit) identities across deck, hands and pool. -/
def cardIds (s : GState) : Multiset (Nat × Nat) :=
  (((s.deck.cards ++ s.hand1 ++ s.hand2 ++ s.pool).map Card.idPair : List (Nat × Nat)) :
    Multiset (Nat × Nat))

/-- The 36 (rank, suit) pairs of a freshly constructed deck. -/
def full_pairs : Multiset (Nat × Nat) :=
  (((List.range 4).flatMap (fun s => (List.range 9).map (fun i => (i + 6, s))) :
    List (Nat × Nat)) : Multiset (Nat × Nat))

/-- Conservation invariant: the card identities across all zones are exactly
the 36 pairs of the fresh deck, as a multiset (so no pair is duplicated or
lost). -/
def conserved (s : GState) : Prop :=
  cardIds s = full_pairs

/-- State right after `Deck()` is constructed, before dealing: full deck,
empty hands, empty pool. -/
def init_state : GState :=
  ⟨Deck.init, [], [], []⟩

end Game

/-- Mutable state a `Player` method can touch: the hand list and the name
(`Player.__init__`, src/main.py lines 94-96). -/
structure PlayerState where
  hand : List Card
  name : String
deriving DecidableEq

namespace PlayerState

/-- Beaters-building loop of `Player.valid_defenses` (src/main.py lines
147-153) in state-transformer form: each iteration reads `self.hand` from the
current state and threads the state on. -/
def build_beaters : PlayerState → List Card → (List (Card × Finset Card)) × PlayerState
  | p, [] => ([], p)
  | p, inc :: rest =>
      let card_list := (p.hand.filter (fun c => Card.lt inc c)).toFinset
      let r := build_beaters p rest
      ((inc, card_list) :: r.1, r.2)

/-- Method `Player.valid_defenses` in state-transformer form: the beaters
loop runs over the incoming cards reading `self.hand`, then the tree search
(which touches only local variables) produces the result; the final state is
whatever state the body left behind. -/
def valid_defenses_run (p : PlayerState) (incoming : List Card) :
    Finset (Finset Card) × PlayerState :=
  let r := build_beaters p incoming
  ((Player.make_defense_tree r.1 ∅).erase ∅, r.2)

end PlayerState

/-! ### Characterization of the defense tree search -/

/-- Membership in the defense tree search, for the beaters list built from
`incoming` over `hand`: the solutions reachable from the partial solution
`sol` are exactly the sets `sol ∪ l.toFinset` for duplicate-free lists `l`
that match each incoming card (in order) to a hand card beating it, with no
card of `l` already committed in `sol`. -/
theorem mem_make_defense_tree (hand : List Card) :
    ∀ (incoming : List Card) (sol S : Finset Card),
      (S ∈ Player.make_defense_tree
        (incoming.map (fun inc => (inc, (hand.filter (fun c => Card.lt inc c)).toFinset))) sol) ↔
      ∃ l : List Card,
        List.Forall₂ (fun c inc => c ∈ hand ∧ Card.lt inc c = true) l incoming ∧
        l.Nodup ∧ (∀ c ∈ l, c ∉ sol) ∧ S = sol ∪ l.toFinset := by
  intro incoming
  induction incoming with
  | nil =>
    intro sol S
    constructor
    · intro h
      refine ⟨[], List.Forall₂.nil, List.nodup_nil, by simp, ?_⟩
      simpa [Player.make_defense_tree] using h
    · rintro ⟨l, h2, -, -, hS⟩
      cases h2
      simp [Player.make_defense_tree, hS]
  | cons inc rest ih =>
    intro sol S
    constructor
    · intro h
      simp only [List.map_cons, Player.make_defense_tree, Finset.mem_biUnion] at h
      obtain ⟨card, hcard, hmem⟩ := h
      by_cases hsol : card ∈ sol
      · simp [hsol] at hmem
      · simp only [if_neg hsol] at hmem
        obtain ⟨l, h2, hnd, hdisj, hS⟩ := (ih (insert card sol) S).mp hmem
        rw [List.mem_toFinset, List.mem_filter] at hcard
        refine ⟨card :: l, List.Forall₂.cons hcard h2, ?_, ?_, ?_⟩
        · refine List.nodup_cons.mpr ⟨fun hcl => ?_, hnd⟩
          exact (hdisj card hcl) (Finset.mem_insert_self card sol)
        · intro c hc
          rcases List.mem_cons.mp hc with rfl | hc'
          · exact hsol
          · intro hcs
            exact hdisj c hc' (Finset.mem_insert_of_mem hcs)
        · rw [hS, List.toFinset_cons, Finset.insert_union, Finset.union_insert]
    · rintro ⟨l, h2, hnd, hdisj, hS⟩
      rcases h2 with - | ⟨hR, h2'⟩
      rename_i card l'
      simp only [List.map_cons, Player.make_defense_tree, Finset.mem_biUnion]
      have hcardsol : card ∉ sol := hdisj card (List.mem_cons_self card l')
      refine ⟨card, ?_, ?_⟩
      · rw [List.mem_toFinset, List.mem_filter]
        exact hR
      · rw [if_neg hcardsol]
        refine (ih (insert card sol) S).mpr ⟨l', h2', (List.nodup_cons.mp hnd).2, ?_, ?_⟩
        · intro c hc
          rw [Finset.mem_insert]
          rintro (rfl | hcs)
          · exact (List.nodup_cons.mp hnd).1 hc
          · exact hdisj c (List.mem_cons_of_mem card hc) hcs
        · rw [hS, List.toFinset_cons, Finset.insert_union, Finset.union_insert]

/-- C1: soundness of defense generation.  For every defender hand and every
non-empty list of incoming attack cards, every solution returned by
`valid_defenses` consists of cards drawn from the hand and covers the
incoming cards bijectively: there is a duplicate-free list of hand cards,
one per incoming card in order, each beating its incoming card per the Card
ordering, whose card set is exactly the solution (so no card is used for two
incoming cards). -/
theorem valid_defenses_sound (hand incoming : List Card) (S : Finset Card)
    (hne : incoming ≠ []) (hS : S ∈ Player.valid_defenses hand incoming) :
    ∃ l : List Card, l.Nodup ∧
      List.Forall₂ (fun c inc => c ∈ hand ∧ Card.lt inc c = true) l incoming ∧
      S = l.toFinset := by
  simp only [Player.valid_defenses, Finset.mem_erase] at hS
  obtain ⟨-, htree⟩ := hS
  obtain ⟨l, h2, hnd, -, hSeq⟩ := (mem_make_defense_tree hand incoming ∅ S).mp htree
  exact ⟨l, hnd, h2, by simpa using hSeq⟩

/-- C1 witness: the spec scenario with trump Hearts (suit 1), defender hand
containing the 7 of Diamonds (suit 3) and the trump Jack, and incoming card
6 of Diamonds; the solution set consisting of the 7 of Diamonds is returned
and decomposes as required. -/
theorem valid_defenses_sound_witness :
    ∃ l : List Card, l.Nodup ∧
      List.Forall₂
        (fun c inc => c ∈ [Card.mk 7 3 false, Card.mk 11 1 true] ∧ Card.lt inc c = true) l
        [Card.mk 6 3 false] ∧
      ({Card.mk 7 3 false} : Finset Card) = l.toFinset :=
  valid_defenses_sound [Card.mk 7 3 false, Card.mk 11 1 true] [Card.mk 6 3 false]
    {Card.mk 7 3 false} (by decide) (by decide)

/-- C2: completeness of defense generation.  For every defender hand and
every non-empty list of incoming attack cards, `valid_defenses` returns
exactly the card sets of complete covering assignments: a set belongs to the
result if and only if it is the card set of a duplicate-free list of hand
cards matching the incoming cards one-to-one, each beating its incoming card.
In particular the result is non-empty exactly when a perfect matching of
incoming cards to distinct beating hand cards exists, and empty when only
partial covers exist. -/
theorem valid_defenses_complete (hand incoming : List Card) (hne : incoming ≠ [])
    (S : Finset Card) :
    S ∈ Player.valid_defenses hand incoming ↔
      ∃ l : List Card, l.Nodup ∧
        List.Forall₂ (fun c inc => c ∈ hand ∧ Card.lt inc c = true) l incoming ∧
        S = l.toFinset := by
  simp only [Player.valid_defenses, Finset.mem_erase]
  constructor
  · rintro ⟨-, htree⟩
    obtain ⟨l, h2, hnd, -, hSeq⟩ := (mem_make_defense_tree hand incoming ∅ S).mp htree
    exact ⟨l, hnd, h2, by simpa using hSeq⟩
  · rintro ⟨l, hnd, h2, rfl⟩
    have hlne : l ≠ [] := by
      intro hl
      apply hne
      have := h2.length_eq
      rw [hl] at this
      exact List.eq_nil_of_length_eq_zero this.symm
    constructor
    · rw [Ne, List.toFinset_eq_empty_iff]
      exact hlne
    · exact (mem_make_defense_tree hand incoming ∅ l.toFinset).mpr
        ⟨l, h2, hnd, by simp, by simp⟩

/-- C2 witness: in the same spec scenario, the trump Jack alone is a
complete defense, so the backward (completeness) direction puts it in the
returned set. -/
theorem valid_defenses_complete_witness :
    ({Card.mk 11 1 true} : Finset Card) ∈
      Player.valid_defenses [Card.mk 7 3 false, Card.mk 11 1 true] [Card.mk 6 3 false] :=
  (valid_defenses_complete [Card.mk 7 3 false, Card.mk 11 1 true] [Card.mk 6 3 false]
      (by decide) {Card.mk 11 1 true}).mpr
    ⟨[Card.mk 11 1 true], by decide,
      List.Forall₂.cons (by decide) List.Forall₂.nil, by decide⟩

/-- C3: evidence that `valid_attacks` ignores the card limit.  In the spec
scenario (opening attack, hand holding the 9 of Spades, the 9 of Hearts and a
Queen) all four same-rank moves are returned and the mixed-rank pair is not;
but with `length_limit = 1` the result still contains the two-card move of
both 9s, whose size 2 exceeds the limit, because the body of `valid_attacks`
never reads `length_limit`. -/
theorem valid_attacks_exceeds_card_limit :
    ({Card.mk 9 0 false} : Finset Card) ∈
      Player.valid_attacks [Card.mk 9 0 false, Card.mk 9 1 false, Card.mk 12 2 false] ∅ 1 ∧
    ({Card.mk 9 1 false} : Finset Card) ∈
      Player.valid_attacks [Card.mk 9 0 false, Card.mk 9 1 false, Card.mk 12 2 false] ∅ 1 ∧
    ({Card.mk 12 2 false} : Finset Card) ∈
      Player.valid_attacks [Card.mk 9 0 false, Card.mk 9 1 false, Card.mk 12 2 false] ∅ 1 ∧
    ({Card.mk 9 0 false, Card.mk 12 2 false} : Finset Card) ∉
      Player.valid_attacks [Card.mk 9 0 false, Card.mk 9 1 false, Card.mk 12 2 false] ∅ 1 ∧
    ({Card.mk 9 0 false, Card.mk 9 1 false} : Finset Card) ∈
      Player.valid_attacks [Card.mk 9 0 false, Card.mk 9 1 false, Card.mk 12 2 false] ∅ 1 ∧
    ({Card.mk 9 0 false, Card.mk 9 1 false} : Finset Card).card = 2 := by
  decide

/-- C4: the Card ordering matches the reference definition, for any pair of
cards whose trump flags are consistently derived from one trump suit `t` (as
`Deck.choose_trump` establishes, and as holds trivially before designation):
`Card.lt a b` holds iff the cards share a suit and `a` has lower rank, or `a`
is non-trump, `b` is trump and the suits differ.  Consequently a trump beats
any non-trump of a different suit, and two non-trump cards of different suits
are mutually incomparable. -/
theorem card_lt_characterization (t : Nat) (a b : Card)
    (ha : a.is_trump = decide (a.suit = t)) (hb : b.is_trump = decide (b.suit = t)) :
    (Card.lt a b = true ↔
      ((a.suit = b.suit ∧ a.rank < b.rank) ∨
        (a.is_trump = false ∧ b.is_trump = true ∧ a.suit ≠ b.suit))) ∧
    (b.is_trump = true → a.is_trump = false → a.suit ≠ b.suit → Card.lt a b = true) ∧
    (a.is_trump = false → b.is_trump = false → a.suit ≠ b.suit →
      Card.lt a b = false ∧ Card.lt b a = false) := by
  refine ⟨?_, ?_, ?_⟩
  · by_cases hs : a.suit = b.suit
    · simp only [Card.lt, if_pos hs, decide_eq_true_eq]
      constructor
      · intro h
        exact Or.inl ⟨hs, h⟩
      · rintro (⟨-, h⟩ | ⟨-, -, hne⟩)
        · exact h
        · exact absurd hs hne
    · simp only [Card.lt, if_neg hs]
      constructor
      · intro h
        have hbt : b.is_trump = true := by
          by_cases hbt : b.is_trump = true
          · exact hbt
          · simp [Bool.not_eq_true] at hbt
            simp [hbt] at h
        have hbsuit : b.suit = t := by
          rw [hbt] at hb
          exact of_decide_eq_true hb.symm
        have hasuit : ¬ a.suit = t := fun h' => hs (h'.trans hbsuit.symm)
        have hat : a.is_trump = false := by rw [ha, decide_eq_false hasuit]
        exact Or.inr ⟨hat, hbt, hs⟩
      · rintro (⟨hsuit, -⟩ | ⟨-, hbt, -⟩)
        · exact absurd hsuit hs
        · simp [hbt]
  · intro hbt hat hs
    simp [Card.lt, hs, hbt]
  · intro hat hbt hs
    constructor
    · simp [Card.lt, hs, hbt]
    · have hs2 : b.suit ≠ a.suit := Ne.symm hs
      simp [Card.lt, hs2, hat]

/-- C4 witness: trump suit 1 (Hearts); the non-trump 6 of Diamonds against
the trump Jack of Hearts. -/
theorem card_lt_characterization_witness :
    (Card.lt (Card.mk 6 3 false) (Card.mk 11 1 true) = true ↔
      (((Card.mk 6 3 false).suit = (Card.mk 11 1 true).suit ∧
          (Card.mk 6 3 false).rank < (Card.mk 11 1 true).rank) ∨
        ((Card.mk 6 3 false).is_trump = false ∧ (Card.mk 11 1 true).is_trump = true ∧
          (Card.mk 6 3 false).suit ≠ (Card.mk 11 1 true).suit))) ∧
    ((Card.mk 11 1 true).is_trump = true → (Card.mk 6 3 false).is_trump = false →
      (Card.mk 6 3 false).suit ≠ (Card.mk 11 1 true).suit →
      Card.lt (Card.mk 6 3 false) (Card.mk 11 1 true) = true) ∧
    ((Card.mk 6 3 false).is_trump = false → (Card.mk 11 1 true).is_trump = false →
      (Card.mk 6 3 false).suit ≠ (Card.mk 11 1 true).suit →
      Card.lt (Card.mk 6 3 false) (Card.mk 11 1 true) = false ∧
        Card.lt (Card.mk 11 1 true) (Card.mk 6 3 false) = false) :=
  card_lt_characterization 1 (Card.mk 6 3 false) (Card.mk 11 1 true) (by decide) (by decide)

/-! ### Card conservation -/

/-- Trump marking does not change a card's (rank, suit) identity. -/
theorem idPair_mark (t : Nat) (c : Card) : Card.idPair (Card.mark t c) = Card.idPair c := by
  simp only [Card.mark, Card.idPair]
  split <;> rfl

/-- Unfolding of `cardIds` into a sum of zone multisets. -/
theorem cardIds_unfold (dc : List Card) (tc : Option Card) (h1 h2 p : List Card) :
    Game.cardIds ⟨⟨dc, tc⟩, h1, h2, p⟩ =
      (↑(dc.map Card.idPair) + ↑(h1.map Card.idPair) + ↑(h2.map Card.idPair) +
        ↑(p.map Card.idPair) : Multiset (Nat × Nat)) := by
  simp [Game.cardIds]

/-- Dealing a card moves it from the deck to a hand: the identity multiset
across all zones is unchanged. -/
theorem cardIds_deal (b : Bool) (s s1 : Game.GState) (h : Game.deal_one b s = some s1) :
    Game.cardIds s1 = Game.cardIds s := by
  obtain ⟨⟨cs, tc⟩, h1, h2, p⟩ := s
  rcases List.eq_nil_or_concat cs with rfl | ⟨L, c, rfl⟩
  · simp [Game.deal_one, Deck.draw] at h
  · rw [List.concat_eq_append] at h ⊢
    simp only [Game.deal_one, Deck.draw, List.getLast?_concat, List.dropLast_concat] at h
    cases b
    · simp only [Bool.false_eq_true, if_false, Option.some.injEq] at h
      subst h
      rw [cardIds_unfold, cardIds_unfold]
      simp only [List.map_append, List.map_cons, List.map_nil]
      rw [← Multiset.coe_add, ← Multiset.coe_add]
      abel
    · simp only [if_true, Option.some.injEq] at h
      subst h
      rw [cardIds_unfold, cardIds_unfold]
      simp only [List.map_append, List.map_cons, List.map_nil]
      rw [← Multiset.coe_add, ← Multiset.coe_add]
      abel

/-- Trump designation reorders the deck and sets trump flags only: the
identity multiset across all zones is unchanged. -/
theorem cardIds_trumpG (s s1 : Game.GState) (h : Game.choose_trumpG s = some s1) :
    Game.cardIds s1 = Game.cardIds s := by
  obtain ⟨⟨cs, tc⟩, h1, h2, p⟩ := s
  rcases List.eq_nil_or_concat cs with rfl | ⟨L, c, rfl⟩
  · simp [Game.choose_trumpG, Deck.choose_trump, Deck.draw] at h
  · rw [List.concat_eq_append] at h ⊢
    simp only [Game.choose_trumpG, Deck.choose_trump, Deck.draw, List.getLast?_concat,
      List.dropLast_concat, Option.some.injEq] at h
    subst h
    rw [cardIds_unfold, cardIds_unfold]
    congr 3
    rw [List.map_map]
    have hm : (Card.idPair ∘ Card.mark c.suit) = Card.idPair := by
      funext x
      exact idPair_mark c.suit x
    rw [hm]
    exact Multiset.coe_eq_coe.mpr (List.Perm.map Card.idPair
      (List.perm_append_singleton c L).symm)

/-- Executing a valid move transfers the move's cards from the mover's hand
to the pool: for a duplicate-free hand and a duplicate-free move drawn from
it, the identity multiset is unchanged. -/
theorem cardIds_exec (hand pool cards : List Card) (hhand : hand.Nodup)
    (hcards : cards.Nodup) (hsub : ∀ c ∈ cards, c ∈ hand) :
    (↑(((Round.execute_move hand pool cards).1).map Card.idPair) +
        ↑(((Round.execute_move hand pool cards).2).map Card.idPair) :
      Multiset (Nat × Nat)) =
      ↑(hand.map Card.idPair) + ↑(pool.map Card.idPair) := by
  simp only [Round.execute_move]
  rw [List.dedup_eq_self.mpr hcards]
  have hperm : List.Perm (hand.filter (fun c => decide (c ∉ cards)) ++ cards) hand := by
    have hbase := List.filter_append_perm (fun c => decide (c ∉ cards)) hand
    have hfe : hand.filter (fun c => !(decide (c ∉ cards))) =
        hand.filter (fun c => decide (c ∈ cards)) := by
      apply List.filter_congr
      intro x _
      simp
    rw [hfe] at hbase
    have hcp : List.Perm (hand.filter (fun c => decide (c ∈ cards))) cards := by
      apply List.perm_of_nodup_nodup_toFinset_eq (hhand.filter _) hcards
      ext x
      simp only [List.mem_toFinset, List.mem_filter, decide_eq_true_eq]
      exact ⟨fun hx => hx.2, fun hx => ⟨hsub x hx, hx⟩⟩
    exact ((List.Perm.append_left _ hcp).symm.trans hbase)
  have := Multiset.coe_eq_coe.mpr (List.Perm.map Card.idPair hperm)
  rw [List.map_append] at this
  rw [← Multiset.coe_add] at this
  rw [List.map_append, ← Multiset.coe_add]
  calc (↑(List.map Card.idPair (hand.filter (fun c => decide (c ∉ cards)))) :
          Multiset (Nat × Nat)) + (↑(pool.map Card.idPair) + ↑(cards.map Card.idPair))
      = (↑(List.map Card.idPair (hand.filter (fun c => decide (c ∉ cards)))) +
          ↑(cards.map Card.idPair)) + ↑(pool.map Card.idPair) := by abel
    _ = ↑(hand.map Card.idPair) + ↑(pool.map Card.idPair) := by rw [this]

/-- A conserved state has duplicate-free hands. -/
theorem nodup_hands_of_conserved (s : Game.GState) (h : Game.conserved s) :
    s.hand1.Nodup ∧ s.hand2.Nodup := by
  have hfp : Game.full_pairs.Nodup := by decide
  rw [Game.conserved] at h
  rw [← h] at hfp
  obtain ⟨⟨cs, tc⟩, h1, h2, p⟩ := s
  rw [Game.cardIds] at hfp
  rw [Multiset.coe_nodup] at hfp
  simp only [List.map_append] at hfp
  constructor
  · exact List.Nodup.of_map _ hfp.of_append_left.of_append_left.of_append_right
  · exact List.Nodup.of_map _ hfp.of_append_left.of_append_right

/-- Rearrangement helper: exchanging two summands against an equation. -/
theorem add_exchange (A B X1 X2 H P : Multiset (Nat × Nat)) (h : X1 + X2 = H + P) :
    A + X1 + B + X2 = A + H + B + P := by
  calc A + X1 + B + X2 = A + B + (X1 + X2) := by abel
    _ = A + B + (H + P) := by rw [h]
    _ = A + H + B + P := by abel

/-- Rearrangement helper: replacing the two last summands. -/
theorem add_exchange2 (A X1 X2 H P : Multiset (Nat × Nat)) (h : X1 + X2 = H + P) :
    A + X1 + X2 = A + H + P := by
  rw [add_assoc, h, ← add_assoc]

/-- C5: card conservation.  From a freshly constructed deck the (rank, suit)
identities across deck, both hands and the round pool form exactly the 36
distinct pairs, and every engine operation preserves this: dealing a card,
`choose_trump` (which only reorders the deck and sets trump flags), and
`execute_move` for any duplicate-free move drawn from the moving player's
hand.  No card identity is ever duplicated or lost. -/
theorem card_conservation :
    (Game.conserved Game.init_state ∧ Game.full_pairs.Nodup) ∧
    (∀ (b : Bool) (s s1 : Game.GState), Game.deal_one b s = some s1 →
      Game.conserved s → Game.conserved s1) ∧
    (∀ (s s1 : Game.GState), Game.choose_trumpG s = some s1 →
      Game.conserved s → Game.conserved s1) ∧
    (∀ (b : Bool) (cards : List Card) (s : Game.GState), Game.conserved s →
      cards.Nodup → (∀ c ∈ cards, c ∈ (if b then s.hand2 else s.hand1)) →
      Game.conserved (Game.execute_moveG b cards s)) := by
  have hinit : Game.conserved Game.init_state := by
    rw [Game.conserved]
    decide
  refine ⟨⟨hinit, by decide⟩, ?_, ?_, ?_⟩
  · intro b s s1 h hc
    rw [Game.conserved, cardIds_deal b s s1 h]
    exact hc
  · intro s s1 h hc
    rw [Game.conserved, cardIds_trumpG s s1 h]
    exact hc
  · intro b cards s hc hnd hsub
    have hhands := nodup_hands_of_conserved s hc
    rw [Game.conserved] at hc ⊢
    rw [← hc]
    obtain ⟨⟨cs, tc⟩, h1, h2, p⟩ := s
    cases b
    · simp only [Bool.false_eq_true, if_false] at hsub
      simp only [Game.execute_moveG, Bool.false_eq_true, if_false]
      rw [cardIds_unfold, cardIds_unfold]
      exact add_exchange _ _ _ _ _ _ (cardIds_exec h1 p cards hhands.1 hnd hsub)
    · simp only [if_true] at hsub
      simp only [Game.execute_moveG, if_true]
      rw [cardIds_unfold, cardIds_unfold]
      exact add_exchange2 _ _ _ _ _ (cardIds_exec h2 p cards hhands.2 hnd hsub)

/-- C5 witness: the empty move (trivially duplicate-free and drawn from the
hand) executed on the fresh state preserves conservation; conservation of the
fresh state itself is the first conjunct. -/
theorem card_conservation_witness :
    Game.conserved (Game.execute_moveG false [] Game.init_state) :=
  card_conservation.2.2.2 false [] Game.init_state card_conservation.1.1
    List.nodup_nil (by simp)

/-- C6: round resolution reaches the right winner but `start_round` cannot
return it.  With a scripted attacker that opens with the 6 of Spades and then
passes, and a defender that covers with the 7 of Spades, the loop of
`start_round` resolves with the defender as winner; with a surrendering
defender it resolves with the attacker as winner.  In both cases
`start_round` itself evaluates to the `AttributeError` raised by
`return self.winner` (line 373 reads an attribute no `Round` object has)
instead of returning the winning player. -/
theorem start_round_attribute_error :
    (Round.round_loop
        (fun pr _ => if pr = ∅ then some [Card.mk 6 0 false] else none)
        (fun _ => some [Card.mk 7 0 false]) 2
        ⟨[Card.mk 6 0 false], [Card.mk 7 0 false], []⟩ =
      some (Round.Winner.defender, ⟨[], [], [Card.mk 6 0 false, Card.mk 7 0 false]⟩)) ∧
    (Round.round_loop
        (fun pr _ => if pr = ∅ then some [Card.mk 6 0 false] else none)
        (fun _ => none) 2
        ⟨[Card.mk 6 0 false], [Card.mk 7 0 false], []⟩ =
      some (Round.Winner.attacker, ⟨[], [Card.mk 7 0 false], [Card.mk 6 0 false]⟩)) ∧
    (Round.start_round
        (fun pr _ => if pr = ∅ then some [Card.mk 6 0 false] else none)
        (fun _ => some [Card.mk 7 0 false]) 2
        ⟨[Card.mk 6 0 false], [Card.mk 7 0 false], []⟩ =
      Except.error "AttributeError: Round object has no attribute winner") ∧
    (Round.start_round
        (fun pr _ => if pr = ∅ then some [Card.mk 6 0 false] else none)
        (fun _ => none) 2
        ⟨[Card.mk 6 0 false], [Card.mk 7 0 false], []⟩ =
      Except.error "AttributeError: Round object has no attribute winner") :=
  ⟨by decide, by decide, rfl, rfl⟩

/-- C7: the attack-step arguments.  At line 360 the playable-rank argument is
indeed the set of ranks of the pool cards, but the card-limit argument is
`len(self.attacker.hand)` — the attacker's own hand size — not the
defender's hand size as the claim states: in a round state where the
attacker holds 2 cards and the defender holds 1, the limit passed is 2. -/
theorem attack_args_uses_attacker_hand_size :
    (Round.attack_args ⟨[Card.mk 6 0 false, Card.mk 8 2 false], [Card.mk 7 0 false],
        [Card.mk 9 1 false]⟩).1 = ({9} : Finset Nat) ∧
    (Round.attack_args ⟨[Card.mk 6 0 false, Card.mk 8 2 false], [Card.mk 7 0 false],
        [Card.mk 9 1 false]⟩).2 = 2 ∧
    ((⟨[Card.mk 6 0 false, Card.mk 8 2 false], [Card.mk 7 0 false],
        [Card.mk 9 1 false]⟩ : Round.RoundState)).defender_hand.length = 1 ∧
    (2 : Nat) ≠ 1 := by
  decide

/-- C8: a second `choose_trump` call does not fail and does not leave trump
flags unchanged.  On the two-card deck holding the 6 of Spades and the 6 of
Hearts, the first call designates Hearts; the second call succeeds (there is
no already-designated guard and no `AlreadyDesignatedError` anywhere in the
code) and additionally marks Spades, leaving both cards trump. -/
theorem choose_trump_second_call_no_error :
    Deck.choose_trump ⟨[Card.mk 6 0 false, Card.mk 6 1 false], none⟩ =
      some ⟨[Card.mk 6 1 true, Card.mk 6 0 false], some (Card.mk 6 1 true)⟩ ∧
    Deck.choose_trump ⟨[Card.mk 6 1 true, Card.mk 6 0 false], some (Card.mk 6 1 true)⟩ =
      some ⟨[Card.mk 6 0 true, Card.mk 6 1 true], some (Card.mk 6 0 true)⟩ := by
  decide

/-- C9 counterexample: `choose_trump` does not mark cards already dealt into
hands.  With the 6 of Hearts alone in the deck and the 7 of Hearts already in
hand 1, designating trump marks the deck's 6 of Hearts (trump suit is
Hearts), but the 7 of Hearts in the hand — a card of the trump suit — keeps
`is_trump = false`, because the marking loop runs over `self.cards` only. -/
theorem choose_trump_skips_dealt_cards :
    Game.choose_trumpG ⟨⟨[Card.mk 6 1 false], none⟩, [Card.mk 7 1 false], [], []⟩ =
      some ⟨⟨[Card.mk 6 1 true], some (Card.mk 6 1 true)⟩, [Card.mk 7 1 false], [], []⟩ ∧
    (Card.mk 7 1 false).suit = (Card.mk 6 1 false).suit ∧
    (Card.mk 7 1 false).is_trump = false := by
  decide

/-- C9 (amended): the first `choose_trump` call draws the deck's last card,
reinserts it at index 0 (so it is drawn last), and marks as trump exactly the
cards of its suit that are currently in the deck's list; the hands and the
pool — hence any card already dealt — are left untouched.  (In the program,
`Game.__init__` calls `choose_trump` before any card is dealt, so there all
36 cards are in the deck and do get marked.) -/
theorem choose_trumpG_marks_only_deck (s : Game.GState) (rest : List Card) (tc : Card)
    (h : s.deck.cards = rest ++ [tc]) :
    Game.choose_trumpG s =
      some ⟨⟨(tc :: rest).map (Card.mark tc.suit), some (Card.mark tc.suit tc)⟩,
        s.hand1, s.hand2, s.pool⟩ := by
  obtain ⟨⟨cs, tcd⟩, h1, h2, p⟩ := s
  change cs = rest ++ [tc] at h
  subst h
  simp [Game.choose_trumpG, Deck.choose_trump, Deck.draw, List.getLast?_concat,
    List.dropLast_concat]

/-- C9 (amended) witness: deck holding the 8 of Clubs under the 6 of Hearts,
with the 7 of Hearts already dealt to hand 1: trump designation marks the
deck's Heart and leaves the hand's Heart unchanged. -/
theorem choose_trumpG_marks_only_deck_witness :
    Game.choose_trumpG ⟨⟨[Card.mk 8 2 false, Card.mk 6 1 false], none⟩,
        [Card.mk 7 1 false], [], []⟩ =
      some ⟨⟨[Card.mk 6 1 true, Card.mk 8 2 false], some (Card.mk 6 1 true)⟩,
        [Card.mk 7 1 false], [], []⟩ :=
  choose_trumpG_marks_only_deck
    ⟨⟨[Card.mk 8 2 false, Card.mk 6 1 false], none⟩, [Card.mk 7 1 false], [], []⟩
    [Card.mk 8 2 false] (Card.mk 6 1 false) rfl

/-- C10: `valid_defenses` has no side effect on the state it reads.  In
state-transformer form the method leaves the player state — in particular
the hand, with its exact card list and order — unchanged, and its result is
the pure function of the hand and the incoming list. -/
theorem valid_defenses_frame (p : PlayerState) (incoming : List Card) :
    (p.valid_defenses_run incoming).2 = p ∧
    (p.valid_defenses_run incoming).1 = Player.valid_defenses p.hand incoming := by
  have hb : ∀ (q : PlayerState) (inc : List Card),
      PlayerState.build_beaters q inc =
        (inc.map (fun i => (i, (q.hand.filter (fun c => Card.lt i c)).toFinset)), q) := by
    intro q inc
    induction inc with
    | nil => rfl
    | cons i rest ih => simp [PlayerState.build_beaters, ih]
  constructor
  · simp [PlayerState.valid_defenses_run, hb]
  · simp [PlayerState.valid_defenses_run, hb, Player.valid_defenses]
